import Mathlib

/-!
Verification of the BINRPC record codec of `go-kamailio` (`binrpc/record.go`).

Go values are embedded as follows: Go `int` (64-bit) becomes `ℤ` (theorems that
depend on the width carry explicit `-2^63 ≤ v < 2^63` bounds); Go `uint8` and raw
bytes become `ℕ` (every byte produced by the code is `< 256`); Go `string` becomes
a list of bytes (`GoStr`), matching Go's byte-sequence strings; Go `float64`
becomes `ℚ` (the code only multiplies by 1000, truncates, copies, widens an int,
and formats, all of which are exact rational operations); fallible Go functions
return `Except GoErr` or report the error in an `Option GoErr` component.
Methods with a pointer receiver (`Scan`, `StructItems`) are embedded by explicit
state passing: they return the receiver record after the call next to their
ordinary results, so that claims about mutation of the receiver are statable.
-/

/-- A Go string, as its sequence of bytes. -/
abbrev GoStr := List ℕ

/-- Modelled from the spec: the wire type tag for Integer. The tag constants are
declared elsewhere in the repository (not under src/); §2 fixes the closed tag
set {Integer, String, Double, Struct} and the degenerate single-byte `0x00`
encoding of `Integer 0` (§4.1) forces `TypeInt = 0`. The remaining values are
the upstream BINRPC protocol constants, pinned external constants per §6. -/
def TypeInt : ℕ := 0

/-- Modelled from the spec: the wire type tag for String (see `TypeInt`). -/
def TypeString : ℕ := 1

/-- Modelled from the spec: the wire type tag for Double (see `TypeInt`). -/
def TypeDouble : ℕ := 3

/-- Modelled from the spec: the wire type tag for Struct (see `TypeInt`). -/
def TypeStruct : ℕ := 4

mutual

/-- The dynamic value stored in a record's `Value any` field. The code only ever
stores or asserts the four payload variants of the data model (§3), so the
dynamic field is embedded as this closed union. -/
inductive Value where
  | vInt (n : ℤ)
  | vString (s : GoStr)
  | vDouble (q : ℚ)
  | vStruct (items : List StructItem)

/-- `StructItem` from `record.go`: one key/value member of a BINRPC struct. -/
inductive StructItem where
  | mk (key : GoStr) (value : Record)

/-- `Record` from `record.go`: unexported `size`, exported `Type` and `Value`. -/
inductive Record where
  | mk (size : ℤ) (type : ℕ) (value : Value)

end

/-- Projection: the unexported `size` field of a `Record`. -/
def Record.size : Record → ℤ
  | .mk s _ _ => s

/-- Projection: the `Type` field of a `Record`. -/
def Record.type : Record → ℕ
  | .mk _ t _ => t

/-- Projection: the `Value` field of a `Record`. -/
def Record.value : Record → Value
  | .mk _ _ v => v

/-- Projection: the `Key` field of a `StructItem`. -/
def StructItem.key : StructItem → GoStr
  | .mk k _ => k

/-- Projection: the `Value` field of a `StructItem`. -/
def StructItem.value : StructItem → Record
  | .mk _ v => v

/-- The Go type assertion `value.(int)`: succeeds exactly on the int variant. -/
def Value.asInt : Value → Option ℤ
  | .vInt n => some n
  | _ => none

/-- The Go type assertion `value.(string)`. -/
def Value.asString : Value → Option GoStr
  | .vString s => some s
  | _ => none

/-- The Go type assertion `value.(float64)`. -/
def Value.asDouble : Value → Option ℚ
  | .vDouble q => some q
  | _ => none

/-- The Go type assertion `value.([]StructItem)`. -/
def Value.asStruct : Value → Option (List StructItem)
  | .vStruct items => some items
  | _ => none

/-- The wire type tag that matches a payload variant (used to state the §3
data-model invariant). -/
def typeOfValue : Value → ℕ
  | .vInt _ => TypeInt
  | .vString _ => TypeString
  | .vDouble _ => TypeDouble
  | .vStruct _ => TypeStruct

/-- The §3 data-model invariant: the payload variant matches the `Type` field. -/
abbrev wf (r : Record) : Prop := r.type = typeOfValue r.value

/-- The errors returned by the embedded code. Go returns them as `error` values
built with `errors.New` / `fmt.Errorf` / `strconv`; here each distinct error
site gets a constructor. A failed type assertion (which would panic in Go, and
is unreachable under the `wf` invariant) is `badAssert`. -/
inductive GoErr where
  | typeAssert (want : String)
  | notImplemented (t : ℕ)
  | accessorMismatch (want got : ℕ)
  | cannotConvert (t : ℕ) (target : String)
  | parseFail (s : GoStr)
  | invalidDest
  | badAssert
  | malformedRecord
  | unsupportedType (t : ℕ)
deriving DecidableEq

/-- One step of the minimal two's-complement byte expansion: emit the low byte
`v.emod 256` after the bytes of the arithmetically shifted value `v.ediv 256`,
bottoming out when the value fits one signed byte. `fuel` is only a termination
device: the shifted argument strictly shrinks in absolute value, so
`v.natAbs + 1` steps always suffice. -/
def tcBytesAux : ℕ → ℤ → List ℕ
  | 0, _ => []
  | fuel + 1, v =>
    if -128 ≤ v ∧ v < 128 then [(v % 256).toNat]
    else tcBytesAux fuel (v / 256) ++ [(v % 256).toNat]

/-- Modelled from the spec: `intToBytesBE`, which `Record.Encode` calls but whose
definition is not under src/. §4.1: the minimal big-endian two's-complement byte
sequence with no redundant leading byte, and the value `0` yields a zero-length
sequence. -/
def intToBytesBE (v : ℤ) : List ℕ :=
  if v = 0 then [] else tcBytesAux (v.natAbs + 1) v

/-- The big-endian unsigned value of a byte sequence. -/
def beNat (bs : List ℕ) : ℕ := bs.foldl (fun acc b => 256 * acc + b) 0

/-- Modelled from the spec: the decoder's reading of an Integer payload (§4.1
step 4), not under src/. An empty payload decodes to 0; otherwise the bytes are
the big-endian two's-complement value, so that the round-trip property of §8
holds for negative values as well. -/
def decodeIntBE (bs : List ℕ) : ℤ :=
  if bs.length = 0 then 0
  else if beNat bs < 2 ^ (8 * bs.length - 1) then (beNat bs : ℤ)
  else (beNat bs : ℤ) - 2 ^ (8 * bs.length)

/-- Go's `int(x)` conversion on a float: truncation toward zero, as a `ℚ → ℤ`
operation. -/
def ratTrunc (q : ℚ) : ℤ := if 0 ≤ q then ⌊q⌋ else ⌈q⌉

/-- The payload bytes (`value` buffer) of `Record.Encode` (record.go lines
129–164), per type: Integer via `intToBytesBE`; String as the raw bytes plus one
`0x00` terminator; Double as `intToBytesBE(int(v * 1000))`; any other tag is the
`default` branch error "type %d not implemented", and a failed type assertion is
the corresponding "type error: expected type ..." error. -/
def payloadBytes (record : Record) : Except GoErr (List ℕ) :=
  if record.type = TypeInt then
    match record.value.asInt with
    | none => .error (.typeAssert "int")
    | some v => .ok (intToBytesBE v)
  else if record.type = TypeString then
    match record.value.asString with
    | none => .error (.typeAssert "string")
    | some s => .ok (s ++ [0x00])
  else if record.type = TypeDouble then
    match record.value.asDouble with
    | none => .error (.typeAssert "float64")
    | some v => .ok (intToBytesBE (ratTrunc (v * 1000)))
  else .error (.notImplemented record.type)

/-- The header/length/payload assembly of `Record.Encode` (record.go lines
166–183): for a payload shorter than 8 bytes, the single header byte
`byte(sizeOfValue<<4) | record.Type`; otherwise the extended header
`1<<7 | uint8(len(sizeBytes)<<4) | record.Type` followed by
`sizeBytes = intToBytesBE sizeOfValue` and the payload. `% 256` is the `uint8`
conversion. -/
def assembleBytes (payload : List ℕ) (t : ℕ) : List ℕ :=
  if payload.length < 8 then
    (((payload.length <<< 4) % 256) ||| t) :: payload
  else
    let sizeBytes := intToBytesBE payload.length
    ((128 ||| ((sizeBytes.length <<< 4) % 256)) ||| t) :: (sizeBytes ++ payload)

/-- `Record.Encode` from record.go: the bytes written to `w` together with the
returned error. Error paths return before anything is written, so they pair the
empty byte list with the error; the `v == 0` Integer shortcut writes the single
byte `0x00` directly. -/
def Record.Encode (record : Record) : List ℕ × Option GoErr :=
  if record.type = TypeInt then
    match record.value.asInt with
    | none => ([], some (.typeAssert "int"))
    | some v =>
      if v = 0 then ([0x00], none)
      else (assembleBytes (intToBytesBE v) record.type, none)
  else if record.type = TypeString then
    match record.value.asString with
    | none => ([], some (.typeAssert "string"))
    | some s => (assembleBytes (s ++ [0x00]) record.type, none)
  else if record.type = TypeDouble then
    match record.value.asDouble with
    | none => ([], some (.typeAssert "float64"))
    | some v => (assembleBytes (intToBytesBE (ratTrunc (v * 1000))) record.type, none)
  else ([], some (.notImplemented record.type))

/-- The general encode algorithm of §4.1 with no `v == 0` shortcut: serialize
the payload with `payloadBytes`, then assemble header and payload. This is the
spec-side definition that claim C4 compares against `Record.Encode`. -/
def encodeNoShortcut (record : Record) : List ℕ × Option GoErr :=
  match payloadBytes record with
  | .error e => ([], some e)
  | .ok payload => (assembleBytes payload record.type, none)

/-- Modelled from the spec: the payload interpretation step of `Decode` (§4.1
step 4) for the scalar tags, not under src/. Integer and Double payloads are read
with `decodeIntBE` (Double is then divided by 1000); a String payload must end in
the single `0x00` terminator, which is stripped; a Struct payload is not needed
by any encode round-trip claim and is treated like the unsupported-tag failure
of step 4 here; `sz` is the decoded record's byte size. -/
def interpretPayload (tag : ℕ) (payload : List ℕ) (sz : ℤ) : Except GoErr Record :=
  if tag = TypeInt then .ok (.mk sz TypeInt (.vInt (decodeIntBE payload)))
  else if tag = TypeString then
    match payload.getLast? with
    | some 0 => .ok (.mk sz TypeString (.vString payload.dropLast))
    | _ => .error .malformedRecord
  else if tag = TypeDouble then
    .ok (.mk sz TypeDouble (.vDouble ((decodeIntBE payload : ℚ) / 1000)))
  else .error (.unsupportedType tag)

/-- Modelled from the spec: `Decode(bytes) → (record, bytesConsumed)` (§4.1),
not under src/. Reads the header byte (bit 7 = extended flag, bits 4–6 = size
field, bits 0–3 = type tag), then the extended length bytes if flagged, then the
payload, failing with `MalformedRecord` whenever a declared length exceeds the
available bytes (§4.1 step 5). -/
def decodeRecord (bs : List ℕ) : Except GoErr (Record × ℕ) :=
  match bs with
  | [] => .error .malformedRecord
  | h :: rest =>
    if h / 128 % 2 = 1 then
      let K := h / 16 % 8
      if rest.length < K then .error .malformedRecord
      else
        let L := beNat (List.take K rest)
        if (List.drop K rest).length < L then .error .malformedRecord
        else
          match interpretPayload (h % 16) (List.take L (List.drop K rest)) (1 + K + L) with
          | .ok r => .ok (r, 1 + K + L)
          | .error e => .error e
    else
      let L := h / 16 % 8
      if rest.length < L then .error .malformedRecord
      else
        match interpretPayload (h % 16) (List.take L rest) (1 + L) with
        | .ok r => .ok (r, 1 + L)
        | .error e => .error e

/-- Decimal digit expansion helper: prepend the decimal digits of `n` (as ASCII
bytes) to `acc`. `fuel` is only a termination device; `n + 1` steps suffice. -/
def natDecAux : ℕ → ℕ → GoStr → GoStr
  | 0, _, acc => acc
  | fuel + 1, n, acc =>
    if n = 0 then acc else natDecAux fuel (n / 10) ((48 + n % 10) :: acc)

/-- The ASCII decimal digits of a natural number (`0` prints as "0"). -/
def natToDec (n : ℕ) : GoStr := if n = 0 then [48] else natDecAux (n + 1) n []

/-- Go's `strconv.Itoa`: base-10 formatting with a leading `-` for negatives. -/
def itoa (n : ℤ) : GoStr :=
  if n < 0 then 45 :: natToDec n.natAbs else natToDec n.toNat

/-- The numeric value of a list of ASCII decimal digits. -/
def digitsToNat (l : GoStr) : ℕ := l.foldl (fun a c => 10 * a + (c - 48)) 0

/-- Whether every byte is an ASCII decimal digit. -/
def allDigits (l : GoStr) : Bool := l.all fun c => decide (48 ≤ c) && decide (c ≤ 57)

/-- Go's `strconv.Atoi`: an optional `+`/`-` sign followed by at least one
decimal digit, rejecting anything else. The 64-bit range check is idealized away
(integers are embedded as `ℤ`). -/
def atoi (s : GoStr) : Except GoErr ℤ :=
  match s with
  | [] => .error (.parseFail s)
  | 43 :: rest =>
    if rest ≠ [] ∧ allDigits rest then .ok (digitsToNat rest : ℤ)
    else .error (.parseFail s)
  | 45 :: rest =>
    if rest ≠ [] ∧ allDigits rest then .ok (-(digitsToNat rest : ℤ))
    else .error (.parseFail s)
  | _ =>
    if allDigits s then .ok (digitsToNat s : ℤ) else .error (.parseFail s)

/-- The unsigned decimal-fraction part of `parseFloat`: integer digits `ip` and
fraction digits `fp` (split on `.`). -/
def fracValue (ip fp : GoStr) : ℚ :=
  (digitsToNat ip : ℚ) + (digitsToNat fp : ℚ) / (10 : ℚ) ^ fp.length

/-- The unsigned syntax accepted by the `parseFloat` model: digits with at most
one `.` (ASCII 46), at least one digit present on either side. -/
def parseUnsigned (s : GoStr) : Except GoErr ℚ :=
  match s.splitOn 46 with
  | [ip] => if ip ≠ [] ∧ allDigits ip then .ok (digitsToNat ip : ℚ) else .error (.parseFail s)
  | [ip, fp] =>
    if (ip ≠ [] ∨ fp ≠ []) ∧ allDigits ip ∧ allDigits fp then .ok (fracValue ip fp)
    else .error (.parseFail s)
  | _ => .error (.parseFail s)

/-- Go's `strconv.ParseFloat(s, 64)`, restricted to the plain decimal forms the
conversion layer is specified for (optional sign, digits, optional fraction);
exponent/hex/Inf/NaN syntax and IEEE rounding are idealized away (`ℚ`). -/
def parseFloat (s : GoStr) : Except GoErr ℚ :=
  match s with
  | 43 :: rest =>
    match parseUnsigned rest with
    | .ok q => .ok q
    | .error _ => .error (.parseFail s)
  | 45 :: rest =>
    match parseUnsigned rest with
    | .ok q => .ok (-q)
    | .error _ => .error (.parseFail s)
  | _ => parseUnsigned s

/-- Three zero-padded ASCII digits of `k < 1000`. -/
def pad3 (k : ℕ) : GoStr := [48 + k / 100 % 10, 48 + k / 10 % 10, 48 + k % 10]

/-- Go's `fmt.Sprintf("%.3f", x)`: the value rounded to a thousandth, printed
with exactly three decimals and a `-` sign taken from the value. Go rounds ties
to even; the tie case (an exact half-thousandth, never produced by the decoder)
is idealized to round-half-up here. -/
def fmt3f (q : ℚ) : GoStr :=
  let n := round (q * 1000)
  let m := n.natAbs
  let digits := natToDec (m / 1000) ++ 46 :: pad3 (m % 1000)
  if q < 0 then 45 :: digits else digits

/-- The four destination cells `Record.Scan` accepts (`*string`, `*int`,
`*float64`, `*[]StructItem`), each holding the value pointed at before the
call. -/
inductive ScanDest where
  | dString (s : GoStr)
  | dInt (n : ℤ)
  | dDouble (q : ℚ)
  | dItems (l : List StructItem)

/-- `Record.Scan` from record.go: switches on the destination type, then on
`record.Type`, copying or coercing the record's value into the destination.
The pointer receiver and the destination pointer are embedded by state passing:
the result carries the error (`nil` = `none`), the receiver record after the
call, and the destination cell after the call. Error paths in the Go code
return before assigning through `dest`, so they keep the old cell. -/
def Record.Scan (record : Record) (dest : ScanDest) : Option GoErr × Record × ScanDest :=
  match dest with
  | .dString s =>
    if record.type = TypeString then
      match record.value.asString with
      | some v => (none, record, .dString v)
      | none => (some .badAssert, record, .dString s)
    else if record.type = TypeInt then
      match record.value.asInt with
      | some n => (none, record, .dString (itoa n))
      | none => (some .badAssert, record, .dString s)
    else if record.type = TypeDouble then
      match record.value.asDouble with
      | some q => (none, record, .dString (fmt3f q))
      | none => (some .badAssert, record, .dString s)
    else (some (.cannotConvert record.type "string"), record, .dString s)
  | .dInt i =>
    if record.type = TypeString then
      match record.value.asString with
      | some v =>
        match atoi v with
        | .ok n => (none, record, .dInt n)
        | .error e => (some e, record, .dInt i)
      | none => (some .badAssert, record, .dInt i)
    else if record.type = TypeInt then
      match record.value.asInt with
      | some n => (none, record, .dInt n)
      | none => (some .badAssert, record, .dInt i)
    else (some (.cannotConvert record.type "int"), record, .dInt i)
  | .dDouble f =>
    if record.type = TypeString then
      match record.value.asString with
      | some v =>
        match parseFloat v with
        | .ok q => (none, record, .dDouble q)
        | .error e => (some e, record, .dDouble f)
      | none => (some .badAssert, record, .dDouble f)
    else if record.type = TypeInt then
      match record.value.asInt with
      | some n => (none, record, .dDouble (n : ℚ))
      | none => (some .badAssert, record, .dDouble f)
    else if record.type = TypeDouble then
      match record.value.asDouble with
      | some q => (none, record, .dDouble q)
      | none => (some .badAssert, record, .dDouble f)
    else (some (.cannotConvert record.type "double"), record, .dDouble f)
  | .dItems l =>
    if record.type ≠ TypeStruct then
      (some (.cannotConvert record.type "[]StructItem"), record, .dItems l)
    else
      match record.value.asStruct with
      | some items => (none, record, .dItems items)
      | none => (some .badAssert, record, .dItems l)

/-- `Record.String` from record.go: the string value, or a type error if the
type is not string. Value receiver, so the caller's record cannot change. -/
def Record.String (record : Record) : Except GoErr GoStr :=
  if record.type ≠ TypeString then .error (.accessorMismatch TypeString record.type)
  else
    match record.value.asString with
    | some s => .ok s
    | none => .error .badAssert

/-- `Record.Int` from record.go: the int value, or a type error. Value
receiver. -/
def Record.Int (record : Record) : Except GoErr ℤ :=
  if record.type ≠ TypeInt then .error (.accessorMismatch TypeInt record.type)
  else
    match record.value.asInt with
    | some n => .ok n
    | none => .error .badAssert

/-- `Record.Double` from record.go: the double value, or a type error. Value
receiver. -/
def Record.Double (record : Record) : Except GoErr ℚ :=
  if record.type ≠ TypeDouble then .error (.accessorMismatch TypeDouble record.type)
  else
    match record.value.asDouble with
    | some q => .ok q
    | none => .error .badAssert

/-- `Record.StructItems` from record.go: the struct items, or a type error.
Pointer receiver, embedded by state passing: the second component is the
receiver record after the call. -/
def Record.StructItems (record : Record) : Except GoErr (List StructItem) × Record :=
  (if record.type ≠ TypeStruct then .error (.accessorMismatch TypeStruct record.type)
   else
     match record.value.asStruct with
     | some items => .ok items
     | none => .error .badAssert,
   record)

theorem beNat_concat (l : List ℕ) (b : ℕ) : beNat (l ++ [b]) = 256 * beNat l + b := by
  simp [beNat, List.foldl_append]

theorem tcBytesAux_spec : ∀ (fuel : ℕ) (v : ℤ), v.natAbs < fuel →
    1 ≤ (tcBytesAux fuel v).length ∧
    -(2 ^ (8 * (tcBytesAux fuel v).length - 1)) ≤ v ∧
    v < 2 ^ (8 * (tcBytesAux fuel v).length - 1) ∧
    (beNat (tcBytesAux fuel v) : ℤ) = v % 2 ^ (8 * (tcBytesAux fuel v).length) := by
  intro fuel
  induction fuel with
  | zero => intro v hv; omega
  | succ fuel ih =>
    intro v hv
    by_cases h : -128 ≤ v ∧ v < 128
    · simp only [tcBytesAux, if_pos h]
      have hb : beNat [(v % 256).toNat] = (v % 256).toNat := by simp [beNat]
      simp only [List.length_singleton, hb]
      norm_num
      omega
    · have hfuel : (v / 256).natAbs < fuel := by omega
      obtain ⟨ih1, ih2, ih3, ih4⟩ := ih (v / 256) hfuel
      simp only [tcBytesAux, if_neg h, beNat_concat, List.length_append, List.length_singleton]
      set l := tcBytesAux fuel (v / 256) with hl
      set n := l.length with hn
      have hexp1 : 8 * (n + 1) - 1 = (8 * n - 1) + 8 := by omega
      have hexp2 : 8 * n = (8 * n - 1) + 1 := by omega
      have hexp3 : 8 * (n + 1) = 8 * n + 8 := by omega
      set A := (2 : ℤ) ^ (8 * n - 1) with hA
      have hApos : 0 < A := by positivity
      have hC : (2 : ℤ) ^ (8 * (n + 1) - 1) = 256 * A := by
        rw [hexp1, pow_add, hA]; ring
      have hB : (2 : ℤ) ^ (8 * n) = 2 * A := by
        rw [hexp2, pow_succ, hA]; ring
      have hD : (2 : ℤ) ^ (8 * (n + 1)) = 256 * (2 : ℤ) ^ (8 * n) := by
        rw [hexp3, pow_add]; ring
      refine ⟨by omega, by omega, by omega, ?_⟩
      -- value equation
      rw [hD]
      set B := (2 : ℤ) ^ (8 * n) with hBdef
      have hBpos : 0 < B := by positivity
      set w := v / 256 % B with hw
      have hw0 : 0 ≤ w := Int.emod_nonneg _ (by omega)
      have hw1 : w < B := Int.emod_lt_of_pos _ hBpos
      have hsplit : v = (256 * w + v % 256) + 256 * B * (v / 256 / B) := by
        have h1 : 256 * (v / 256) + v % 256 = v := Int.ediv_add_emod v 256
        have h2 : B * (v / 256 / B) + v / 256 % B = v / 256 := Int.ediv_add_emod (v / 256) B
        rw [hw]
        nlinarith [h1, h2]
      have hlt : 0 ≤ 256 * w + v % 256 ∧ 256 * w + v % 256 < 256 * B := by
        constructor
        · have : 0 ≤ v % 256 := Int.emod_nonneg _ (by omega)
          omega
        · have : v % 256 < 256 := Int.emod_lt_of_pos _ (by omega)
          omega
      have : v % (256 * B) = 256 * w + v % 256 := by
        conv_lhs => rw [hsplit]
        rw [Int.add_mul_emod_self_left]
        exact Int.emod_eq_of_lt hlt.1 hlt.2
      push_cast
      omega

theorem tcBytesAux_length_le : ∀ (fuel : ℕ) (v : ℤ) (k : ℕ), v.natAbs < fuel → 1 ≤ k →
    -(2 ^ (8 * k - 1)) ≤ v → v < 2 ^ (8 * k - 1) → (tcBytesAux fuel v).length ≤ k := by
  intro fuel
  induction fuel with
  | zero => intro v k hv; omega
  | succ fuel ih =>
    intro v k hv hk h1 h2
    by_cases h : -128 ≤ v ∧ v < 128
    · simp only [tcBytesAux, if_pos h, List.length_singleton]; omega
    · have hk2 : 2 ≤ k := by
        by_contra hcon
        have : k = 1 := by omega
        subst this
        norm_num at h1 h2
        omega
      have hfuel : (v / 256).natAbs < fuel := by omega
      have hexp : 8 * k - 1 = (8 * (k - 1) - 1) + 8 := by omega
      set F := (2 : ℤ) ^ (8 * (k - 1) - 1) with hF
      have hFpos : 0 < F := by positivity
      have hE : (2 : ℤ) ^ (8 * k - 1) = 256 * F := by rw [hexp, pow_add, hF]; ring
      have hbounds : -F ≤ v / 256 ∧ v / 256 < F := by
        have h3 : 256 * (v / 256) + v % 256 = v := Int.ediv_add_emod v 256
        have h4 : 0 ≤ v % 256 := Int.emod_nonneg _ (by omega)
        have h5 : v % 256 < 256 := Int.emod_lt_of_pos _ (by omega)
        omega
      have := ih (v / 256) (k - 1) hfuel (by omega) hbounds.1 hbounds.2
      simp only [tcBytesAux, if_neg h, List.length_append, List.length_singleton]
      omega

theorem intToBytesBE_length_le (v : ℤ) (k : ℕ) (hk : 1 ≤ k)
    (h1 : -(2 ^ (8 * k - 1)) ≤ v) (h2 : v < 2 ^ (8 * k - 1)) :
    (intToBytesBE v).length ≤ k := by
  unfold intToBytesBE
  by_cases hv : v = 0
  · simp [hv]
  · rw [if_neg hv]
    exact tcBytesAux_length_le _ v k (by omega) hk h1 h2

theorem decodeIntBE_intToBytesBE (v : ℤ) : decodeIntBE (intToBytesBE v) = v := by
  unfold intToBytesBE
  by_cases hv : v = 0
  · simp [hv, decodeIntBE]
  · rw [if_neg hv]
    obtain ⟨h1, h2, h3, h4⟩ := tcBytesAux_spec (v.natAbs + 1) v (by omega)
    unfold decodeIntBE
    set l := tcBytesAux (v.natAbs + 1) v with hl
    set n := l.length with hn
    have hexp : 8 * n = (8 * n - 1) + 1 := by omega
    set A := (2 : ℤ) ^ (8 * n - 1) with hA
    have hApos : 0 < A := by positivity
    have hB : (2 : ℤ) ^ (8 * n) = 2 * A := by rw [hexp, pow_succ, hA]; ring
    have hAcast : ((2 ^ (8 * n - 1) : ℕ) : ℤ) = A := by push_cast [hA]; ring
    rw [if_neg (by omega)]
    by_cases hpos : 0 ≤ v
    · have hmod : v % 2 ^ (8 * n) = v := Int.emod_eq_of_lt hpos (by omega)
      rw [hmod] at h4
      have hlt : beNat l < 2 ^ (8 * n - 1) := by omega
      rw [if_pos hlt]
      omega
    · have hv2 : -(2 ^ (8 * n)) ≤ v := by omega
      have hmod : v % 2 ^ (8 * n) = v + 2 ^ (8 * n) := by
        have step : (v + 2 ^ (8 * n) * 1) % 2 ^ (8 * n) = v % 2 ^ (8 * n) :=
          Int.add_mul_emod_self_left v (2 ^ (8 * n)) 1
        rw [mul_one] at step
        rw [← step]
        exact Int.emod_eq_of_lt (by omega) (by omega)
      rw [hmod] at h4
      have hge : ¬ beNat l < 2 ^ (8 * n - 1) := by omega
      rw [if_neg hge]
      omega

theorem beNat_intToBytesBE_nat (n : ℕ) : beNat (intToBytesBE (n : ℤ)) = n := by
  by_cases hn : n = 0
  · simp [hn, intToBytesBE, beNat]
  · unfold intToBytesBE
    rw [if_neg (by exact_mod_cast hn)]
    obtain ⟨h1, h2, h3, h4⟩ := tcBytesAux_spec ((n : ℤ).natAbs + 1) (n : ℤ) (by omega)
    set l := tcBytesAux ((n : ℤ).natAbs + 1) (n : ℤ) with hl
    set m := l.length with hm
    have hexp : 8 * m = (8 * m - 1) + 1 := by omega
    set A := (2 : ℤ) ^ (8 * m - 1) with hA
    have hApos : 0 < A := by positivity
    have hB : (2 : ℤ) ^ (8 * m) = 2 * A := by rw [hexp, pow_succ, hA]; ring
    have hmod : (n : ℤ) % 2 ^ (8 * m) = (n : ℤ) := Int.emod_eq_of_lt (by omega) (by omega)
    rw [hmod] at h4
    omega

theorem headerShortVal : ∀ L, L < 8 → ∀ t, t < 16 → ((L <<< 4) % 256) ||| t = 16 * L + t := by
  decide

theorem headerExtVal : ∀ K, K < 8 → ∀ t, t < 16 →
    (128 ||| ((K <<< 4) % 256)) ||| t = 128 + 16 * K + t := by
  decide

theorem decodeRecord_assembleBytes_short (t : ℕ) (ht : t < 16) (pl rest : List ℕ)
    (hL : pl.length < 8) :
    decodeRecord (assembleBytes pl t ++ rest) =
      match interpretPayload t pl (1 + (pl.length : ℤ)) with
      | .ok r => .ok (r, 1 + pl.length)
      | .error e => .error e := by
  have hh := headerShortVal pl.length hL t ht
  simp only [assembleBytes, if_pos hL, List.cons_append, decodeRecord, hh]
  rw [if_neg (by omega)]
  rw [if_neg (by simp only [List.length_append]; omega)]
  have htake : List.take ((16 * pl.length + t) / 16 % 8) (pl ++ rest) = pl := by
    have : (16 * pl.length + t) / 16 % 8 = pl.length := by omega
    rw [this, List.take_left]
  rw [htake]
  have htag : (16 * pl.length + t) % 16 = t := by omega
  have hsz : (16 * pl.length + t) / 16 % 8 = pl.length := by omega
  rw [htag, hsz]

theorem decodeRecord_assembleBytes_ext (t : ℕ) (ht : t < 16) (pl rest : List ℕ)
    (hL : 8 ≤ pl.length) (hK : (intToBytesBE (pl.length : ℤ)).length < 8) :
    decodeRecord (assembleBytes pl t ++ rest) =
      match interpretPayload t pl
          (1 + ((intToBytesBE (pl.length : ℤ)).length : ℤ) + (pl.length : ℤ)) with
      | .ok r => .ok (r, 1 + (intToBytesBE (pl.length : ℤ)).length + pl.length)
      | .error e => .error e := by
  set sizeBytes := intToBytesBE (pl.length : ℤ) with hsb
  set K := sizeBytes.length with hKdef
  have hh := headerExtVal K hK t ht
  simp only [assembleBytes, if_neg (by omega : ¬ pl.length < 8), List.cons_append,
    List.append_assoc, decodeRecord, ← hsb, ← hKdef, hh]
  rw [if_pos (by omega)]
  have hsz : (128 + 16 * K + t) / 16 % 8 = K := by omega
  have htag : (128 + 16 * K + t) % 16 = t := by omega
  rw [hsz, htag]
  rw [if_neg (by simp only [List.length_append]; omega)]
  have htakeK : List.take K (sizeBytes ++ (pl ++ rest)) = sizeBytes := by
    rw [hKdef, List.take_left]
  have hdropK : List.drop K (sizeBytes ++ (pl ++ rest)) = pl ++ rest := by
    rw [hKdef, List.drop_left]
  rw [htakeK, hdropK]
  have hbe : beNat sizeBytes = pl.length := beNat_intToBytesBE_nat pl.length
  rw [hbe]
  rw [if_neg (by simp only [List.length_append]; omega)]
  rw [List.take_left]

theorem assembleBytes_short (pl : List ℕ) (t : ℕ) (ht : t < 16) (hL : pl.length < 8) :
    assembleBytes pl t = (16 * pl.length + t) :: pl := by
  simp only [assembleBytes, if_pos hL, headerShortVal pl.length hL t ht]

theorem assembleBytes_ext (pl : List ℕ) (t : ℕ) (ht : t < 16) (hL : ¬ pl.length < 8)
    (hK : (intToBytesBE (pl.length : ℤ)).length < 8) :
    assembleBytes pl t =
      (128 + 16 * (intToBytesBE (pl.length : ℤ)).length + t) ::
        (intToBytesBE (pl.length : ℤ) ++ pl) := by
  simp only [assembleBytes, if_neg hL]
  rw [headerExtVal _ hK _ ht]

/-- C4: the special-cased single byte `0x00` that `Record.Encode` writes for an
Integer record holding 0 is byte-identical to the output of the general
algorithm (`encodeNoShortcut`): the payload is zero-length, so the record
degenerates to the single header byte `(0 <<< 4) ||| TypeInt = 0x00`, whatever
the private size field holds. -/
theorem int_zero_shortcut_refines_general (z : ℤ) :
    (Record.mk z TypeInt (.vInt 0)).Encode = encodeNoShortcut (Record.mk z TypeInt (.vInt 0)) ∧
    (Record.mk z TypeInt (.vInt 0)).Encode = ([(0 <<< 4) ||| TypeInt], none) ∧
    payloadBytes (Record.mk z TypeInt (.vInt 0)) = .ok [] := by
  refine ⟨?_, ?_, ?_⟩
  · simp [Record.Encode, encodeNoShortcut, payloadBytes, Record.type, Record.value, Value.asInt,
      intToBytesBE, assembleBytes, TypeInt]
  · simp [Record.Encode, Record.type, Record.value, Value.asInt, TypeInt]
  · simp [payloadBytes, Record.type, Record.value, Value.asInt, intToBytesBE, TypeInt]

/-- C4 witness: the statement at the concrete size value 0. -/
theorem int_zero_shortcut_refines_general_witness :
    (Record.mk 0 TypeInt (.vInt 0)).Encode = encodeNoShortcut (Record.mk 0 TypeInt (.vInt 0)) ∧
    (Record.mk 0 TypeInt (.vInt 0)).Encode = ([(0 <<< 4) ||| TypeInt], none) ∧
    payloadBytes (Record.mk 0 TypeInt (.vInt 0)) = .ok [] :=
  int_zero_shortcut_refines_general 0

/-- C6: encoding any record whose type tag is `TypeStruct`, or any type tag
outside {`TypeInt`, `TypeString`, `TypeDouble`}, hits the `default` branch of
`Record.Encode`: it returns the not-implemented (unsupported type) error and
writes no bytes at all to the output. -/
theorem encode_unsupported_type (r : Record)
    (h : r.type = TypeStruct ∨ (r.type ≠ TypeInt ∧ r.type ≠ TypeString ∧ r.type ≠ TypeDouble)) :
    r.Encode = ([], some (.notImplemented r.type)) := by
  have h0 : r.type ≠ TypeInt ∧ r.type ≠ TypeString ∧ r.type ≠ TypeDouble := by
    rcases h with h | h
    · rw [h]
      refine ⟨by norm_num [TypeStruct, TypeInt], by norm_num [TypeStruct, TypeString],
        by norm_num [TypeStruct, TypeDouble]⟩
    · exact h
  unfold Record.Encode
  rw [if_neg h0.1, if_neg h0.2.1, if_neg h0.2.2]

/-- C6 witness: a Struct record fails to encode and nothing is written. -/
theorem encode_unsupported_type_witness :
    (Record.mk 0 TypeStruct (.vStruct [])).Encode =
      ([], some (.notImplemented (Record.mk 0 TypeStruct (.vStruct [])).type)) :=
  encode_unsupported_type (Record.mk 0 TypeStruct (.vStruct [])) (Or.inl rfl)

/-- C2: whenever `Record.Encode` succeeds, with payload `pl` of length `L`: if
`L < 8` the output is exactly the single header byte `L <<< 4 ||| Type`
(= `16 * L + Type`), whose extended-length bit 7 is clear, followed directly by
the payload; if `L ≥ 8` (with `K`, the byte count of the minimal big-endian
encoding of `L`, at most 7 as the spec guarantees) the header byte has bit 7
set and bits 4–6 equal to `K`, and the `K` bytes of `intToBytesBE L` follow the
header immediately, before the payload. -/
theorem encode_header_format (r : Record) (out : List ℕ) (henc : r.Encode = (out, none)) :
    ∃ pl, payloadBytes r = .ok pl ∧
      (pl.length < 8 →
        out = (16 * pl.length + r.type) :: pl ∧
        (16 * pl.length + r.type) / 128 % 2 = 0) ∧
      (8 ≤ pl.length → (intToBytesBE (pl.length : ℤ)).length < 8 →
        out = (128 + 16 * (intToBytesBE (pl.length : ℤ)).length + r.type) ::
            (intToBytesBE (pl.length : ℤ) ++ pl) ∧
        (128 + 16 * (intToBytesBE (pl.length : ℤ)).length + r.type) / 128 % 2 = 1 ∧
        (128 + 16 * (intToBytesBE (pl.length : ℤ)).length + r.type) / 16 % 8 =
          (intToBytesBE (pl.length : ℤ)).length) := by
  obtain ⟨z, t, val⟩ := r
  simp only [Record.type] at henc ⊢
  by_cases ht1 : t = TypeInt
  · subst ht1
    cases hval : Value.asInt val with
    | none =>
      rw [show (Record.mk z TypeInt val).Encode = ([], some (.typeAssert "int")) by
        simp [Record.Encode, Record.type, Record.value, hval, TypeInt]] at henc
      simp at henc
    | some v =>
      by_cases hv : v = 0
      · subst hv
        rw [show (Record.mk z TypeInt val).Encode = ([0], none) by
          simp [Record.Encode, Record.type, Record.value, hval, TypeInt]] at henc
        simp only [Prod.mk.injEq] at henc
        obtain ⟨hout, -⟩ := henc
        refine ⟨[], ?_, ?_, ?_⟩
        · simp [payloadBytes, Record.type, Record.value, hval, intToBytesBE, TypeInt]
        · intro _
          constructor
          · rw [← hout]
            simp [TypeInt]
          · norm_num [TypeInt]
        · intro habs _
          simp at habs
      · rw [show (Record.mk z TypeInt val).Encode =
            (assembleBytes (intToBytesBE v) TypeInt, none) by
          simp [Record.Encode, Record.type, Record.value, hval, hv, TypeInt]] at henc
        simp only [Prod.mk.injEq] at henc
        obtain ⟨hout, -⟩ := henc
        subst hout
        refine ⟨intToBytesBE v, ?_, ?_, ?_⟩
        · simp [payloadBytes, Record.type, Record.value, hval, TypeInt]
        · intro hL
          rw [assembleBytes_short _ _ (by norm_num [TypeInt]) hL]
          exact ⟨rfl, by simp only [TypeInt]; omega⟩
        · intro hL hK
          rw [assembleBytes_ext _ _ (by norm_num [TypeInt]) (by omega) hK]
          exact ⟨rfl, by simp only [TypeInt]; omega, by simp only [TypeInt]; omega⟩
  · by_cases ht2 : t = TypeString
    · subst ht2
      cases hval : Value.asString val with
      | none =>
        rw [show (Record.mk z TypeString val).Encode = ([], some (.typeAssert "string")) by
          simp [Record.Encode, Record.type, Record.value, hval, TypeInt, TypeString]] at henc
        simp at henc
      | some s =>
        rw [show (Record.mk z TypeString val).Encode =
            (assembleBytes (s ++ [0]) TypeString, none) by
          simp [Record.Encode, Record.type, Record.value, hval, TypeInt, TypeString]] at henc
        simp only [Prod.mk.injEq] at henc
        obtain ⟨hout, -⟩ := henc
        subst hout
        refine ⟨s ++ [0], ?_, ?_, ?_⟩
        · simp [payloadBytes, Record.type, Record.value, hval, TypeInt, TypeString]
        · intro hL
          rw [assembleBytes_short _ _ (by norm_num [TypeString]) hL]
          exact ⟨rfl, by simp only [TypeString]; omega⟩
        · intro hL hK
          rw [assembleBytes_ext _ _ (by norm_num [TypeString]) (by omega) hK]
          exact ⟨rfl, by simp only [TypeString]; omega, by simp only [TypeString]; omega⟩
    · by_cases ht3 : t = TypeDouble
      · subst ht3
        cases hval : Value.asDouble val with
        | none =>
          rw [show (Record.mk z TypeDouble val).Encode = ([], some (.typeAssert "float64")) by
            simp [Record.Encode, Record.type, Record.value, hval, TypeInt, TypeString,
              TypeDouble]] at henc
          simp at henc
        | some q =>
          rw [show (Record.mk z TypeDouble val).Encode =
              (assembleBytes (intToBytesBE (ratTrunc (q * 1000))) TypeDouble, none) by
            simp [Record.Encode, Record.type, Record.value, hval, TypeInt, TypeString,
              TypeDouble]] at henc
          simp only [Prod.mk.injEq] at henc
          obtain ⟨hout, -⟩ := henc
          subst hout
          refine ⟨intToBytesBE (ratTrunc (q * 1000)), ?_, ?_, ?_⟩
          · simp [payloadBytes, Record.type, Record.value, hval, TypeInt, TypeString, TypeDouble]
          · intro hL
            rw [assembleBytes_short _ _ (by norm_num [TypeDouble]) hL]
            exact ⟨rfl, by simp only [TypeDouble]; omega⟩
          · intro hL hK
            rw [assembleBytes_ext _ _ (by norm_num [TypeDouble]) (by omega) hK]
            exact ⟨rfl, by simp only [TypeDouble]; omega, by simp only [TypeDouble]; omega⟩
      · rw [show (Record.mk z t val).Encode = ([], some (.notImplemented t)) by
          unfold Record.Encode
          simp only [Record.type, Record.value]
          rw [if_neg ht1, if_neg ht2, if_neg ht3]] at henc
        simp at henc

/-- C2 witness: a String record with a 7-byte string (8-byte payload) encodes
through the extended-length form; the theorem applied there. -/
theorem encode_header_format_witness :
    ∃ pl, payloadBytes (Record.mk 0 TypeString (.vString [49, 50, 51, 52, 53, 54, 55])) =
        .ok pl ∧
      (pl.length < 8 →
        [145, 8, 49, 50, 51, 52, 53, 54, 55, 0] =
          (16 * pl.length + (Record.mk 0 TypeString
            (.vString [49, 50, 51, 52, 53, 54, 55])).type) :: pl ∧
        (16 * pl.length + (Record.mk 0 TypeString
          (.vString [49, 50, 51, 52, 53, 54, 55])).type) / 128 % 2 = 0) ∧
      (8 ≤ pl.length → (intToBytesBE (pl.length : ℤ)).length < 8 →
        [145, 8, 49, 50, 51, 52, 53, 54, 55, 0] =
          (128 + 16 * (intToBytesBE (pl.length : ℤ)).length + (Record.mk 0 TypeString
            (.vString [49, 50, 51, 52, 53, 54, 55])).type) ::
            (intToBytesBE (pl.length : ℤ) ++ pl) ∧
        (128 + 16 * (intToBytesBE (pl.length : ℤ)).length + (Record.mk 0 TypeString
          (.vString [49, 50, 51, 52, 53, 54, 55])).type) / 128 % 2 = 1 ∧
        (128 + 16 * (intToBytesBE (pl.length : ℤ)).length + (Record.mk 0 TypeString
          (.vString [49, 50, 51, 52, 53, 54, 55])).type) / 16 % 8 =
          (intToBytesBE (pl.length : ℤ)).length) :=
  encode_header_format (Record.mk 0 TypeString (.vString [49, 50, 51, 52, 53, 54, 55]))
    [145, 8, 49, 50, 51, 52, 53, 54, 55, 0] rfl

theorem assembleBytes_length_short (pl : List ℕ) (t : ℕ) (hL : pl.length < 8) :
    (assembleBytes pl t).length = 1 + pl.length := by
  simp [assembleBytes, if_pos hL]
  omega

theorem assembleBytes_length_ext (pl : List ℕ) (t : ℕ) (hL : ¬ pl.length < 8) :
    (assembleBytes pl t).length = 1 + (intToBytesBE (pl.length : ℤ)).length + pl.length := by
  simp [assembleBytes, if_neg hL]
  omega

theorem interpretPayload_int (pl : List ℕ) (sz : ℤ) :
    interpretPayload TypeInt pl sz = .ok (Record.mk sz TypeInt (.vInt (decodeIntBE pl))) := by
  simp [interpretPayload]

theorem interpretPayload_string (s : GoStr) (sz : ℤ) :
    interpretPayload TypeString (s ++ [0]) sz = .ok (Record.mk sz TypeString (.vString s)) := by
  simp [interpretPayload, TypeString, TypeInt, List.getLast?_concat, List.dropLast_concat]

theorem interpretPayload_double (pl : List ℕ) (sz : ℤ) :
    interpretPayload TypeDouble pl sz =
      .ok (Record.mk sz TypeDouble (.vDouble ((decodeIntBE pl : ℚ) / 1000))) := by
  simp [interpretPayload, TypeDouble, TypeInt, TypeString]

/-- C1: for every 64-bit integer value `v` — including 0, negatives, and values
whose minimal encoding needs 8 bytes and hence the extended-length header —
encoding an Integer record holding `v` succeeds, and decoding the produced
bytes (with anything appended after them) yields an Integer record holding `v`
again, consuming exactly the bytes Encode produced. -/
theorem int_encode_decode_roundtrip (z v : ℤ) (h1 : -(2 ^ 63) ≤ v) (h2 : v < 2 ^ 63) :
    ∃ out, (Record.mk z TypeInt (.vInt v)).Encode = (out, none) ∧
      ∀ rest, ∃ r' : Record, decodeRecord (out ++ rest) = .ok (r', out.length) ∧
        r'.type = TypeInt ∧ r'.value = .vInt v := by
  by_cases hv : v = 0
  · subst hv
    refine ⟨[0], by simp [Record.Encode, Record.type, Record.value, Value.asInt, TypeInt], ?_⟩
    intro rest
    refine ⟨Record.mk 1 TypeInt (.vInt 0), ?_, rfl, rfl⟩
    simp [decodeRecord, interpretPayload, decodeIntBE, beNat, TypeInt]
  · refine ⟨assembleBytes (intToBytesBE v) TypeInt, by
      simp [Record.Encode, Record.type, Record.value, Value.asInt, TypeInt, hv], ?_⟩
    intro rest
    have hlen8 : (intToBytesBE v).length ≤ 8 := by
      refine intToBytesBE_length_le v 8 (by norm_num) ?_ ?_
      · norm_num
        exact h1
      · norm_num
        exact h2
    by_cases hL : (intToBytesBE v).length < 8
    · rw [decodeRecord_assembleBytes_short TypeInt (by norm_num [TypeInt]) _ rest hL,
        interpretPayload_int, decodeIntBE_intToBytesBE]
      refine ⟨Record.mk (1 + ((intToBytesBE v).length : ℤ)) TypeInt (.vInt v), ?_, rfl, rfl⟩
      rw [assembleBytes_length_short _ _ hL]
    · have hpl : (intToBytesBE v).length = 8 := by omega
      have hK : (intToBytesBE ((intToBytesBE v).length : ℤ)).length < 8 := by
        rw [hpl]; decide
      rw [decodeRecord_assembleBytes_ext TypeInt (by norm_num [TypeInt]) _ rest (by omega) hK,
        interpretPayload_int, decodeIntBE_intToBytesBE]
      refine ⟨Record.mk (1 + ((intToBytesBE ((intToBytesBE v).length : ℤ)).length : ℤ) +
        ((intToBytesBE v).length : ℤ)) TypeInt (.vInt v), ?_, rfl, rfl⟩
      rw [assembleBytes_length_ext _ _ hL]

/-- C1 witness: the round-trip applied at `v = -(2^60)`, whose minimal encoding
needs 8 bytes and exercises the extended-length header, with the 64-bit bounds
discharged concretely. -/
theorem int_encode_decode_roundtrip_witness :
    ∃ out, (Record.mk 0 TypeInt (.vInt (-(2 ^ 60)))).Encode = (out, none) ∧
      ∀ rest, ∃ r' : Record, decodeRecord (out ++ rest) = .ok (r', out.length) ∧
        r'.type = TypeInt ∧ r'.value = .vInt (-(2 ^ 60)) :=
  int_encode_decode_roundtrip 0 (-(2 ^ 60)) (by norm_num) (by norm_num)

/-- C5: encoding a Text record holding `s` always uses the payload
`s ++ [0x00]` (the raw bytes plus exactly one terminator, so the empty string
has the one-byte payload `[0x00]`), and for any string whose payload length
stays within the spec's `K ≤ 7` extended-header capacity, decoding the encoded
bytes returns the string unchanged, consuming exactly the bytes produced. -/
theorem string_encode_decode_roundtrip (z : ℤ) (s : GoStr) :
    payloadBytes (Record.mk z TypeString (.vString s)) = .ok (s ++ [0]) ∧
    payloadBytes (Record.mk z TypeString (.vString [])) = .ok [0] ∧
    (((s.length + 1 : ℕ) : ℤ) < 2 ^ 55 →
      ∃ out, (Record.mk z TypeString (.vString s)).Encode = (out, none) ∧
        ∀ rest, ∃ r' : Record, decodeRecord (out ++ rest) = .ok (r', out.length) ∧
          r'.type = TypeString ∧ r'.value = .vString s) := by
  refine ⟨by simp [payloadBytes, Record.type, Record.value, Value.asString, TypeString, TypeInt],
    by simp [payloadBytes, Record.type, Record.value, Value.asString, TypeString, TypeInt], ?_⟩
  intro hcap
  refine ⟨assembleBytes (s ++ [0]) TypeString, by
    simp [Record.Encode, Record.type, Record.value, Value.asString, TypeString, TypeInt], ?_⟩
  intro rest
  have hplen : (s ++ [0]).length = s.length + 1 := by simp
  by_cases hL : (s ++ [0]).length < 8
  · rw [decodeRecord_assembleBytes_short TypeString (by norm_num [TypeString]) _ rest hL,
      interpretPayload_string]
    refine ⟨Record.mk (1 + (((s ++ [0]).length : ℕ) : ℤ)) TypeString (.vString s), ?_, rfl, rfl⟩
    rw [assembleBytes_length_short _ _ hL]
  · have hK : (intToBytesBE (((s ++ [0]).length : ℕ) : ℤ)).length < 8 := by
      have hle := intToBytesBE_length_le (((s ++ [0]).length : ℕ) : ℤ) 7 (by norm_num)
        (by
          have h0 : (0 : ℤ) ≤ (((s ++ [0]).length : ℕ) : ℤ) := Int.natCast_nonneg _
          have h1 : (0 : ℤ) < 2 ^ (8 * 7 - 1) := by positivity
          omega)
        (by
          rw [hplen]
          push_cast at hcap ⊢
          omega)
      omega
    rw [decodeRecord_assembleBytes_ext TypeString (by norm_num [TypeString]) _ rest (by omega) hK,
      interpretPayload_string]
    refine ⟨Record.mk (1 + ((intToBytesBE (((s ++ [0]).length : ℕ) : ℤ)).length : ℤ) +
      (((s ++ [0]).length : ℕ) : ℤ)) TypeString (.vString s), ?_, rfl, rfl⟩
    rw [assembleBytes_length_ext _ _ hL]

/-- C5 witness: the theorem applied at the 7-byte string (8-byte payload, so
the extended form round-trips) and capacity hypothesis discharged. -/
theorem string_encode_decode_roundtrip_witness :
    payloadBytes (Record.mk 0 TypeString (.vString [49, 50, 51, 52, 53, 54, 55])) =
      .ok ([49, 50, 51, 52, 53, 54, 55] ++ [0]) ∧
    (∃ out, (Record.mk 0 TypeString (.vString [49, 50, 51, 52, 53, 54, 55])).Encode =
        (out, none) ∧
      ∀ rest, ∃ r' : Record, decodeRecord (out ++ rest) = .ok (r', out.length) ∧
        r'.type = TypeString ∧ r'.value = .vString [49, 50, 51, 52, 53, 54, 55]) :=
  ⟨(string_encode_decode_roundtrip 0 [49, 50, 51, 52, 53, 54, 55]).1,
   (string_encode_decode_roundtrip 0 [49, 50, 51, 52, 53, 54, 55]).2.2 (by norm_num)⟩

/-- C3: encoding a Fixed (Double) record holding `x` writes as payload the
minimal big-endian bytes of `int(x * 1000)` (truncation toward zero, the same
`intToBytesBE` rule as Integer); whenever that truncated integer fits a 64-bit
int, decoding the encoded record yields the value `trunc(x*1000)/1000`,
consuming exactly the produced bytes — and that value differs from `x` whenever
`x * 1000` is not an integer (more than 3 decimal digits). -/
theorem fixed_encode_decode (z : ℤ) (q : ℚ) :
    payloadBytes (Record.mk z TypeDouble (.vDouble q)) =
      .ok (intToBytesBE (ratTrunc (q * 1000))) ∧
    (-(2 ^ 63) ≤ ratTrunc (q * 1000) → ratTrunc (q * 1000) < 2 ^ 63 →
      ∃ out, (Record.mk z TypeDouble (.vDouble q)).Encode = (out, none) ∧
        ∀ rest, ∃ r' : Record, decodeRecord (out ++ rest) = .ok (r', out.length) ∧
          r'.type = TypeDouble ∧
          r'.value = .vDouble ((ratTrunc (q * 1000) : ℚ) / 1000)) ∧
    ((¬ ∃ m : ℤ, q * 1000 = (m : ℚ)) → ((ratTrunc (q * 1000) : ℚ) / 1000) ≠ q) := by
  refine ⟨by simp [payloadBytes, Record.type, Record.value, Value.asDouble, TypeDouble,
    TypeInt, TypeString], ?_, ?_⟩
  · intro hb1 hb2
    set m := ratTrunc (q * 1000) with hm
    refine ⟨assembleBytes (intToBytesBE m) TypeDouble, by
      simp [Record.Encode, Record.type, Record.value, Value.asDouble, TypeDouble, TypeInt,
        TypeString, hm], ?_⟩
    intro rest
    have hlen8 : (intToBytesBE m).length ≤ 8 := by
      refine intToBytesBE_length_le m 8 (by norm_num) ?_ ?_
      · norm_num
        exact hb1
      · norm_num
        exact hb2
    by_cases hL : (intToBytesBE m).length < 8
    · rw [decodeRecord_assembleBytes_short TypeDouble (by norm_num [TypeDouble]) _ rest hL,
        interpretPayload_double, decodeIntBE_intToBytesBE]
      refine ⟨Record.mk (1 + ((intToBytesBE m).length : ℤ)) TypeDouble
        (.vDouble ((m : ℚ) / 1000)), ?_, rfl, rfl⟩
      rw [assembleBytes_length_short _ _ hL]
    · have hpl : (intToBytesBE m).length = 8 := by omega
      have hK : (intToBytesBE ((intToBytesBE m).length : ℤ)).length < 8 := by
        rw [hpl]; decide
      rw [decodeRecord_assembleBytes_ext TypeDouble (by norm_num [TypeDouble]) _ rest
        (by omega) hK, interpretPayload_double, decodeIntBE_intToBytesBE]
      refine ⟨Record.mk (1 + ((intToBytesBE ((intToBytesBE m).length : ℤ)).length : ℤ) +
        ((intToBytesBE m).length : ℤ)) TypeDouble (.vDouble ((m : ℚ) / 1000)), ?_, rfl, rfl⟩
      rw [assembleBytes_length_ext _ _ hL]
  · intro hne heq
    apply hne
    set t := ratTrunc (q * 1000) with ht
    refine ⟨t, ?_⟩
    rw [← heq]
    field_simp

/-- C3 witness: the theorem applied at `x = 1.23456`; its truncation 1234 fits
64 bits, and `1234/1000 ≠ 1.23456`. -/
theorem fixed_encode_decode_witness :
    (∃ out, (Record.mk 0 TypeDouble (.vDouble (123456 / 100000))).Encode = (out, none) ∧
      ∀ rest, ∃ r' : Record, decodeRecord (out ++ rest) = .ok (r', out.length) ∧
        r'.type = TypeDouble ∧
        r'.value = .vDouble ((ratTrunc ((123456 / 100000 : ℚ) * 1000) : ℚ) / 1000)) ∧
    ((ratTrunc ((123456 / 100000 : ℚ) * 1000) : ℚ) / 1000) ≠ (123456 / 100000 : ℚ) := by
  have htr : ratTrunc ((123456 / 100000 : ℚ) * 1000) = 1234 := by norm_num [ratTrunc]
  refine ⟨(fixed_encode_decode 0 (123456 / 100000)).2.1 (by rw [htr]; norm_num)
    (by rw [htr]; norm_num), (fixed_encode_decode 0 (123456 / 100000)).2.2 ?_⟩
  rintro ⟨m, hm⟩
  have h25 : (30864 : ℚ) = 25 * (m : ℚ) := by linear_combination (25 : ℚ) * hm
  have h25z : (30864 : ℤ) = 25 * m := by exact_mod_cast h25
  omega

/-- C7: `Record.Scan` applies exactly the coercion table of the conversion
layer, and nothing else: String→string copy, Integer→string base-10 formatting,
Fixed→string 3-decimal formatting, String→int base-10 parsing (propagating the
parse error on failure), Integer→int copy, String→float parsing (likewise),
Integer→float widening, Fixed→float copy, Struct→[]StructItem copy; every other
record-kind/target-kind pair — Struct to any scalar target, any scalar to
`*[]StructItem`, and Fixed to `*int` — fails with the conversion error. -/
theorem scan_coercion_table :
    (∀ (z : ℤ) (s d : GoStr), (Record.mk z TypeString (.vString s)).Scan (.dString d) =
      (none, Record.mk z TypeString (.vString s), .dString s)) ∧
    (∀ (z n : ℤ) (d : GoStr), (Record.mk z TypeInt (.vInt n)).Scan (.dString d) =
      (none, Record.mk z TypeInt (.vInt n), .dString (itoa n))) ∧
    (∀ (z : ℤ) (q : ℚ) (d : GoStr), (Record.mk z TypeDouble (.vDouble q)).Scan (.dString d) =
      (none, Record.mk z TypeDouble (.vDouble q), .dString (fmt3f q))) ∧
    (∀ (z : ℤ) (l : List StructItem) (d : GoStr),
      (Record.mk z TypeStruct (.vStruct l)).Scan (.dString d) =
      (some (.cannotConvert TypeStruct "string"), Record.mk z TypeStruct (.vStruct l),
        .dString d)) ∧
    (∀ (z : ℤ) (s : GoStr) (d n : ℤ), atoi s = .ok n →
      (Record.mk z TypeString (.vString s)).Scan (.dInt d) =
      (none, Record.mk z TypeString (.vString s), .dInt n)) ∧
    (∀ (z : ℤ) (s : GoStr) (d : ℤ) (e : GoErr), atoi s = .error e →
      (Record.mk z TypeString (.vString s)).Scan (.dInt d) =
      (some e, Record.mk z TypeString (.vString s), .dInt d)) ∧
    (∀ (z n d : ℤ), (Record.mk z TypeInt (.vInt n)).Scan (.dInt d) =
      (none, Record.mk z TypeInt (.vInt n), .dInt n)) ∧
    (∀ (z : ℤ) (q : ℚ) (d : ℤ), (Record.mk z TypeDouble (.vDouble q)).Scan (.dInt d) =
      (some (.cannotConvert TypeDouble "int"), Record.mk z TypeDouble (.vDouble q), .dInt d)) ∧
    (∀ (z : ℤ) (l : List StructItem) (d : ℤ),
      (Record.mk z TypeStruct (.vStruct l)).Scan (.dInt d) =
      (some (.cannotConvert TypeStruct "int"), Record.mk z TypeStruct (.vStruct l), .dInt d)) ∧
    (∀ (z : ℤ) (s : GoStr) (d q : ℚ), parseFloat s = .ok q →
      (Record.mk z TypeString (.vString s)).Scan (.dDouble d) =
      (none, Record.mk z TypeString (.vString s), .dDouble q)) ∧
    (∀ (z : ℤ) (s : GoStr) (d : ℚ) (e : GoErr), parseFloat s = .error e →
      (Record.mk z TypeString (.vString s)).Scan (.dDouble d) =
      (some e, Record.mk z TypeString (.vString s), .dDouble d)) ∧
    (∀ (z n : ℤ) (d : ℚ), (Record.mk z TypeInt (.vInt n)).Scan (.dDouble d) =
      (none, Record.mk z TypeInt (.vInt n), .dDouble (n : ℚ))) ∧
    (∀ (z : ℤ) (q d : ℚ), (Record.mk z TypeDouble (.vDouble q)).Scan (.dDouble d) =
      (none, Record.mk z TypeDouble (.vDouble q), .dDouble q)) ∧
    (∀ (z : ℤ) (l : List StructItem) (d : ℚ),
      (Record.mk z TypeStruct (.vStruct l)).Scan (.dDouble d) =
      (some (.cannotConvert TypeStruct "double"), Record.mk z TypeStruct (.vStruct l),
        .dDouble d)) ∧
    (∀ (z : ℤ) (l d : List StructItem), (Record.mk z TypeStruct (.vStruct l)).Scan (.dItems d) =
      (none, Record.mk z TypeStruct (.vStruct l), .dItems l)) ∧
    (∀ (z : ℤ) (s : GoStr) (d : List StructItem),
      (Record.mk z TypeString (.vString s)).Scan (.dItems d) =
      (some (.cannotConvert TypeString "[]StructItem"), Record.mk z TypeString (.vString s),
        .dItems d)) ∧
    (∀ (z n : ℤ) (d : List StructItem), (Record.mk z TypeInt (.vInt n)).Scan (.dItems d) =
      (some (.cannotConvert TypeInt "[]StructItem"), Record.mk z TypeInt (.vInt n),
        .dItems d)) ∧
    (∀ (z : ℤ) (q : ℚ) (d : List StructItem),
      (Record.mk z TypeDouble (.vDouble q)).Scan (.dItems d) =
      (some (.cannotConvert TypeDouble "[]StructItem"), Record.mk z TypeDouble (.vDouble q),
        .dItems d)) := by
  refine ⟨?_, ?_, ?_, ?_, ?_, ?_, ?_, ?_, ?_, ?_, ?_, ?_, ?_, ?_, ?_, ?_, ?_, ?_⟩
  · intro z s d
    simp [Record.Scan, Record.type, Record.value, Value.asString, TypeString, TypeInt]
  · intro z n d
    simp [Record.Scan, Record.type, Record.value, Value.asInt, TypeString, TypeInt]
  · intro z q d
    simp [Record.Scan, Record.type, Record.value, Value.asDouble, TypeString, TypeInt,
      TypeDouble]
  · intro z l d
    simp [Record.Scan, Record.type, Record.value, TypeString, TypeInt, TypeDouble, TypeStruct]
  · intro z s d n h
    simp [Record.Scan, Record.type, Record.value, Value.asString, TypeString, TypeInt, h]
  · intro z s d e h
    simp [Record.Scan, Record.type, Record.value, Value.asString, TypeString, TypeInt, h]
  · intro z n d
    simp [Record.Scan, Record.type, Record.value, Value.asInt, TypeString, TypeInt]
  · intro z q d
    simp [Record.Scan, Record.type, Record.value, TypeString, TypeInt, TypeDouble]
  · intro z l d
    simp [Record.Scan, Record.type, Record.value, TypeString, TypeInt, TypeDouble, TypeStruct]
  · intro z s d q h
    simp [Record.Scan, Record.type, Record.value, Value.asString, TypeString, TypeInt, h]
  · intro z s d e h
    simp [Record.Scan, Record.type, Record.value, Value.asString, TypeString, TypeInt, h]
  · intro z n d
    simp [Record.Scan, Record.type, Record.value, Value.asInt, TypeString, TypeInt]
  · intro z q d
    simp [Record.Scan, Record.type, Record.value, Value.asDouble, TypeString, TypeInt,
      TypeDouble]
  · intro z l d
    simp [Record.Scan, Record.type, Record.value, TypeString, TypeInt, TypeDouble, TypeStruct]
  · intro z l d
    simp [Record.Scan, Record.type, Record.value, Value.asStruct, TypeStruct]
  · intro z s d
    simp [Record.Scan, Record.type, Record.value, TypeString, TypeStruct]
  · intro z n d
    simp [Record.Scan, Record.type, Record.value, TypeInt, TypeStruct]
  · intro z q d
    simp [Record.Scan, Record.type, Record.value, TypeDouble, TypeStruct]

/-- C7 witness: the String→int coercion applied at the record holding "12"
parses to 12; hypothesis discharged by evaluation. -/
theorem scan_coercion_table_witness :
    (Record.mk 0 TypeString (.vString [49, 50])).Scan (.dInt 0) =
      (none, Record.mk 0 TypeString (.vString [49, 50]), .dInt 12) :=
  scan_coercion_table.2.2.2.2.1 0 [49, 50] 0 12 rfl

/-- C8: under the data-model invariant (payload variant matches the `Type`
field), each strict accessor fails exactly when `record.Type` differs from its
expected tag, and on the matching tag returns the stored value unchanged with
no coercion. -/
theorem strict_accessors (r : Record) (h : wf r) :
    ((∃ e, r.String = .error e) ↔ r.type ≠ TypeString) ∧
    (∀ s, r.value = .vString s → r.String = .ok s) ∧
    ((∃ e, r.Int = .error e) ↔ r.type ≠ TypeInt) ∧
    (∀ n, r.value = .vInt n → r.Int = .ok n) ∧
    ((∃ e, r.Double = .error e) ↔ r.type ≠ TypeDouble) ∧
    (∀ q, r.value = .vDouble q → r.Double = .ok q) ∧
    ((∃ e, (r.StructItems).1 = .error e) ↔ r.type ≠ TypeStruct) ∧
    (∀ l, r.value = .vStruct l → (r.StructItems).1 = .ok l) := by
  obtain ⟨z, t, val⟩ := r
  simp only [wf, Record.type, Record.value] at h
  cases val with
  | vInt n =>
    simp only [typeOfValue] at h
    subst h
    refine ⟨?_, ?_, ?_, ?_, ?_, ?_, ?_, ?_⟩ <;>
      simp [Record.String, Record.Int, Record.Double, Record.StructItems, Record.type,
        Record.value, Value.asInt, TypeInt, TypeString, TypeDouble, TypeStruct]
  | vString s =>
    simp only [typeOfValue] at h
    subst h
    refine ⟨?_, ?_, ?_, ?_, ?_, ?_, ?_, ?_⟩ <;>
      simp [Record.String, Record.Int, Record.Double, Record.StructItems, Record.type,
        Record.value, Value.asString, TypeInt, TypeString, TypeDouble, TypeStruct]
  | vDouble q =>
    simp only [typeOfValue] at h
    subst h
    refine ⟨?_, ?_, ?_, ?_, ?_, ?_, ?_, ?_⟩ <;>
      simp [Record.String, Record.Int, Record.Double, Record.StructItems, Record.type,
        Record.value, Value.asDouble, TypeInt, TypeString, TypeDouble, TypeStruct]
  | vStruct l =>
    simp only [typeOfValue] at h
    subst h
    refine ⟨?_, ?_, ?_, ?_, ?_, ?_, ?_, ?_⟩ <;>
      simp [Record.String, Record.Int, Record.Double, Record.StructItems, Record.type,
        Record.value, Value.asStruct, TypeInt, TypeString, TypeDouble, TypeStruct]

/-- C8 witness: the theorem applied at a well-formed Integer record. -/
theorem strict_accessors_witness :
    ((∃ e, (Record.mk 0 TypeInt (.vInt 7)).String = .error e) ↔
      (Record.mk 0 TypeInt (.vInt 7)).type ≠ TypeString) ∧
    (∀ s, (Record.mk 0 TypeInt (.vInt 7)).value = .vString s →
      (Record.mk 0 TypeInt (.vInt 7)).String = .ok s) ∧
    ((∃ e, (Record.mk 0 TypeInt (.vInt 7)).Int = .error e) ↔
      (Record.mk 0 TypeInt (.vInt 7)).type ≠ TypeInt) ∧
    (∀ n, (Record.mk 0 TypeInt (.vInt 7)).value = .vInt n →
      (Record.mk 0 TypeInt (.vInt 7)).Int = .ok n) ∧
    ((∃ e, (Record.mk 0 TypeInt (.vInt 7)).Double = .error e) ↔
      (Record.mk 0 TypeInt (.vInt 7)).type ≠ TypeDouble) ∧
    (∀ q, (Record.mk 0 TypeInt (.vInt 7)).value = .vDouble q →
      (Record.mk 0 TypeInt (.vInt 7)).Double = .ok q) ∧
    ((∃ e, ((Record.mk 0 TypeInt (.vInt 7)).StructItems).1 = .error e) ↔
      (Record.mk 0 TypeInt (.vInt 7)).type ≠ TypeStruct) ∧
    (∀ l, (Record.mk 0 TypeInt (.vInt 7)).value = .vStruct l →
      ((Record.mk 0 TypeInt (.vInt 7)).StructItems).1 = .ok l) :=
  strict_accessors (Record.mk 0 TypeInt (.vInt 7)) rfl

/-- C9: `Record.Scan` leaves the receiver record itself unchanged in every
outcome — the record component of the state after the call, and each of its
`size`, `Type` and `Value` fields, equal their values before the call — and so
does the pointer-receiver accessor `StructItems`. (The accessors `String`,
`Int` and `Double` take the receiver by value, so they cannot mutate the
caller's record in Go, and are pure functions here.) -/
theorem scan_leaves_record_unchanged (r : Record) (d : ScanDest) :
    (r.Scan d).2.1 = r ∧
    ((r.Scan d).2.1).size = r.size ∧
    ((r.Scan d).2.1).type = r.type ∧
    ((r.Scan d).2.1).value = r.value ∧
    (r.StructItems).2 = r := by
  have h : (r.Scan d).2.1 = r := by
    unfold Record.Scan
    cases d
    all_goals
      repeat' split
      all_goals rfl
  exact ⟨h, by rw [h], by rw [h], by rw [h], rfl⟩

/-- C10: on every error outcome of `Record.Scan` the destination cell is left
exactly as it was before the call — in particular, when a String record fails
to parse for an `*int` or `*float64` destination, Scan returns that parse error
and does not touch the destination. -/
theorem scan_error_leaves_dest_unchanged :
    (∀ (r : Record) (d : ScanDest), (r.Scan d).1.isSome → (r.Scan d).2.2 = d) ∧
    (∀ (z : ℤ) (s : GoStr) (d : ℤ) (e : GoErr), atoi s = .error e →
      (Record.mk z TypeString (.vString s)).Scan (.dInt d) =
        (some e, Record.mk z TypeString (.vString s), .dInt d)) ∧
    (∀ (z : ℤ) (s : GoStr) (d : ℚ) (e : GoErr), parseFloat s = .error e →
      (Record.mk z TypeString (.vString s)).Scan (.dDouble d) =
        (some e, Record.mk z TypeString (.vString s), .dDouble d)) := by
  refine ⟨?_, ?_, ?_⟩
  · intro r d
    unfold Record.Scan
    cases d
    all_goals
      repeat' split
      all_goals simp_all
  · intro z s d e h
    simp [Record.Scan, Record.type, Record.value, Value.asString, TypeString, TypeInt, h]
  · intro z s d e h
    simp [Record.Scan, Record.type, Record.value, Value.asString, TypeString, TypeInt, h]

/-- C10 witness: scanning the non-numeric string "a" into an int destination
returns the parse error and leaves the destination at its prior value 7. -/
theorem scan_error_leaves_dest_unchanged_witness :
    (Record.mk 0 TypeString (.vString [97])).Scan (.dInt 7) =
      (some (.parseFail [97]), Record.mk 0 TypeString (.vString [97]), .dInt 7) :=
  scan_error_leaves_dest_unchanged.2.1 0 [97] 7 (.parseFail [97]) rfl
